import Mathlib

/-!
Shallow embedding of the `revolver` repository (a dictionary-of-keys sparse
matrix library plus a Cartesian-product iterator utility) and proofs of the
specification's claims about it.

Source files embedded:
* `src/sparse.rs`  — module `dok`: the `Zero`/`One` identity traits, the
  `DOKMatrix` container with `new`, `zeros`, `identity`, `transposed` and the
  `Index` implementation (panicking bounds check).
* `src/util.rs`    — module `itertools`: the `CartesianProduct` iterator state
  and its `next` step function.

Modelling conventions:
* `u64` indices and extents become `Nat`.  No arithmetic is ever performed on
  an index in the source (indices are only compared, inserted and looked up,
  and `0..size` ranges never wrap), so `Nat` is a faithful model.
* `std::collections::HashMap<Coords, T>` is modelled by its extensional
  denotation, a partial map `Coords → Option T`.  The source never observes
  iteration order in a way that matters: the only iteration over a map
  (`transposed`) inserts at pairwise-distinct swapped keys, so the resulting
  map is order-independent.
* `f64` is modelled by `ℚ`.  The library performs no floating-point
  arithmetic at all: the only `f64` values that exist are stored literals and
  the constants `0.0` and `1.0`, which are exact, so rationals represent them
  faithfully.
* A Rust `panic!` in `index` becomes `Except.error` carrying the formatted
  panic message; every other operation is a total function, mirroring the
  panic-free source.
* Rust iterators over finite sequences become `List`s; `Iterator::next`
  becomes an explicit step function returning the yielded item (if any)
  together with the successor state.
-/

namespace Revolver

namespace Dok

/-- Rust `type Coords = (u64, u64);`. -/
abbrev Coords : Type := Nat × Nat

/-- Rust `type CoordMap<T> = HashMap<Coords, T>;`, as its extensional
denotation: a partial map from coordinates to values. -/
def CoordMap (T : Type) : Type := Coords → Option T

/-- `HashMap::get` — lookup of a key. -/
def CoordMap.get {T : Type} (m : CoordMap T) (k : Coords) : Option T := m k

/-- `HashMap::insert` — adds the binding `k ↦ v`, replacing any previous
binding of `k`. -/
def CoordMap.insert {T : Type} (m : CoordMap T) (k : Coords) (v : T) :
    CoordMap T :=
  fun q => if q = k then some v else m q

/-- `HashMap::new` — the empty map. -/
def CoordMap.empty {T : Type} : CoordMap T := fun _ => none

/-- Rust `trait Zero { fn zero() -> &'static Self; }`: the additive identity,
a process-wide constant. -/
class Zero (T : Type) where
  zero : T

/-- Rust `trait One { fn one() -> &'static Self; }`: the multiplicative
identity, a process-wide constant. -/
class One (T : Type) where
  one : T

/-- The built-in eligible element type `f64` (see the modelling conventions:
no floating-point arithmetic occurs, so exact rationals serve). -/
abbrev F64 : Type := ℚ

/-- Rust `const ZERO_F64: f64 = 0.0;`. -/
def ZERO_F64 : F64 := 0

/-- Rust `const ONE_F64: f64 = 1.0;`. -/
def ONE_F64 : F64 := 1

/-- Rust `impl Zero for f64` — returns the static reference to `0.0`. -/
instance instZeroF64 : Zero F64 := ⟨ZERO_F64⟩

/-- Rust `impl One for f64` — returns (via deref coercion of the static
`&ONE_F64_REF`) the static reference to `1.0`. -/
instance instOneF64 : One F64 := ⟨ONE_F64⟩

/-- Rust `pub struct DOKMatrix<T>`: a dictionary-of-keys sparse matrix. -/
structure DOKMatrix (T : Type) where
  nrows : Nat
  ncols : Nat
  elems : CoordMap T

/-- `DOKMatrix::new(nrows, ncols, elems)` — wraps a caller-supplied map as a
matrix of the given shape, with no validation of the stored coordinates. -/
def DOKMatrix.new {T : Type} (nrows ncols : Nat) (elems : CoordMap T) :
    DOKMatrix T :=
  { nrows := nrows, ncols := ncols, elems := elems }

/-- `DOKMatrix::zeros(nrows, ncols)` — a matrix of the given shape with an
empty map. -/
def DOKMatrix.zeros {T : Type} (nrows ncols : Nat) : DOKMatrix T :=
  DOKMatrix.new nrows ncols CoordMap.empty

/-- `DOKMatrix::identity(size)` — inserts `(i, i) ↦ *T::one()` into a fresh
map for each `i` in `0..size`, then wraps it as a `size × size` matrix.  The
loop is modelled as a left fold over `List.range size`. -/
def DOKMatrix.identity {T : Type} [One T] (size : Nat) : DOKMatrix T :=
  DOKMatrix.new size size
    ((List.range size).foldl (fun m i => m.insert (i, i) One.one)
      CoordMap.empty)

/-- `DOKMatrix::transposed` — builds a fresh map by inserting `(j, i) ↦ *v`
for every entry `(i, j) ↦ v` of the receiver, and wraps it as a matrix with
`nrows`/`ncols` swapped.  Key swapping is injective, so the map built by the
loop is exactly the map that reads at `(a, b)` what the source map holds at
`(b, a)`; that function is the denotation used here. -/
def DOKMatrix.transposed {T : Type} (m : DOKMatrix T) : DOKMatrix T :=
  DOKMatrix.new m.ncols m.nrows (fun q => m.elems (q.2, q.1))

/-- The panic message of the out-of-bounds branch of `index`, after Rust's
string-literal line continuation and `format!` substitution. -/
def oobMsg (row col nrows ncols : Nat) : String :=
  "Out of bounds index (" ++ toString row ++ ", " ++ toString col ++
    ") for sparse matrix of shape (" ++ toString nrows ++ ", " ++
    toString ncols ++ ")"

/-- `impl Index<(u64, u64)> for DOKMatrix<T>`, `fn index` — the element
lookup: panics (here: `Except.error` with the panic message) when either
index meets or exceeds the corresponding extent, otherwise returns the stored
value or the static zero. -/
def DOKMatrix.index {T : Type} [Zero T] (m : DOKMatrix T) (row col : Nat) :
    Except String T :=
  if row ≥ m.nrows ∨ col ≥ m.ncols then
    Except.error (oobMsg row col m.nrows m.ncols)
  else
    match m.elems.get (row, col) with
    | none => Except.ok Zero.zero
    | some v => Except.ok v

end Dok

namespace Itertools

/-- Rust `pub struct CartesianProduct<I, J>`: the iterator state.  Iterators
over finite sequences are modelled by the list of their remaining items. -/
structure CartesianProduct (α β : Type) where
  first : List α
  saved_first : Option α
  second : List β
  second_clone : List β

/-- Rust `pub fn cartesian_product(mut i, j)` — draws the first item of `i`
into `saved_first` (advancing `i`), stores `j` as the live inner iterator and
keeps a pristine clone of `j` for replay. -/
def cartesian_product {α β : Type} (i : List α) (j : List β) :
    CartesianProduct α β :=
  { saved_first := i.head?, first := i.tail, second_clone := j, second := j }

/-- Rust `fn next(&mut self)` of the `Iterator` impl, as a step function from
a state to the yielded item (if any) and the successor state.  Mirrors the
source: advance `second`; on exhaustion reset `second` from the pristine
clone, advance it once, and advance `first` into `saved_first` (returning
`None` if the freshly reset `second` is immediately empty); finally pair the
inner item with `saved_first`, or yield `None` when `saved_first` is gone. -/
def CartesianProduct.next {α β : Type} (s : CartesianProduct α β) :
    Option (α × β) × CartesianProduct α β :=
  match s.second with
  | item :: rest =>
    match s.saved_first with
    | some fi => (some (fi, item), { s with second := rest })
    | none => (none, { s with second := rest })
  | [] =>
    match s.second_clone with
    | item :: rest =>
      match s.first with
      | fi :: ft =>
        (some (fi, item),
         { s with second := rest, saved_first := some fi, first := ft })
      | [] =>
        (none, { s with second := rest, saved_first := none, first := [] })
    | [] => (none, { s with second := [] })

/-- The state after `n` calls to `next` (discarding the yields). -/
def CartesianProduct.stepN {α β : Type} (s : CartesianProduct α β) :
    Nat → CartesianProduct α β
  | 0 => s
  | n + 1 => (s.next.2).stepN n

/-- The item yielded by the `(n+1)`-st call to `next` (zero-based: `out s 0`
is the first yield). -/
def CartesianProduct.out {α β : Type} (s : CartesianProduct α β) (n : Nat) :
    Option (α × β) :=
  ((s.stepN n).next).1

/-- The row-major pair enumeration the specification describes: all pairs for
the first element of sequence one (in sequence-two order), then all pairs for
the second element of sequence one, and so on. -/
def rowMajor {α β : Type} : List α → List β → List (α × β)
  | [], _ => []
  | a :: t, j => j.map (fun b => (a, b)) ++ rowMajor t j

theorem rowMajor_nil_right {α β : Type} (l : List α) :
    rowMajor l ([] : List β) = [] := by
  induction l with
  | nil => rfl
  | cons a t ih => simp [rowMajor, ih]

/-- The list of pairs a state has left to yield: nothing once `saved_first`
is gone; otherwise the rest of the current inner pass paired with the saved
outer item, followed by full passes for the remaining outer items. -/
def CartesianProduct.denote {α β : Type} (s : CartesianProduct α β) :
    List (α × β) :=
  match s.saved_first with
  | none => []
  | some a => s.second.map (fun b => (a, b)) ++ rowMajor s.first s.second_clone

/-- State invariant maintained by construction and by `next`: once
`saved_first` is gone, the outer iterator is exhausted. -/
def CartesianProduct.Inv {α β : Type} (s : CartesianProduct α β) : Prop :=
  s.saved_first = none → s.first = []

theorem inv_cartesian_product {α β : Type} (i : List α) (j : List β) :
    (cartesian_product i j).Inv := by
  intro h
  simp only [cartesian_product] at h ⊢
  cases i with
  | nil => rfl
  | cons a t => simp at h

theorem inv_next {α β : Type} (s : CartesianProduct α β) (h : s.Inv) :
    s.next.2.Inv := by
  obtain ⟨f, sf, sec, sc⟩ := s
  match sec, sf, sc, f with
  | item :: rest, some fi, _, _ => intro hc; cases hc
  | item :: rest, none, _, _ =>
    intro _
    exact h rfl
  | [], _, c :: cs, fi :: ft => intro hc; cases hc
  | [], _, c :: cs, [] => intro _; rfl
  | [], some fi, [], _ => intro hc; cases hc
  | [], none, [], _ => intro _; exact h rfl

theorem next_fst {α β : Type} (s : CartesianProduct α β) (h : s.Inv) :
    s.next.1 = s.denote.head? := by
  obtain ⟨f, sf, sec, sc⟩ := s
  match sec, sf, sc, f with
  | item :: rest, some fi, _, _ => simp [CartesianProduct.next, CartesianProduct.denote]
  | item :: rest, none, _, _ => simp [CartesianProduct.next, CartesianProduct.denote]
  | [], some fi, c :: cs, a :: ft =>
    simp [CartesianProduct.next, CartesianProduct.denote, rowMajor]
  | [], none, c :: cs, a :: ft =>
    exact absurd (h rfl) (by simp)
  | [], some fi, c :: cs, [] =>
    simp [CartesianProduct.next, CartesianProduct.denote, rowMajor]
  | [], none, c :: cs, [] =>
    simp [CartesianProduct.next, CartesianProduct.denote, rowMajor]
  | [], some fi, [], _ =>
    simp [CartesianProduct.next, CartesianProduct.denote, rowMajor_nil_right]
  | [], none, [], _ =>
    simp [CartesianProduct.next, CartesianProduct.denote]

theorem next_snd_denote {α β : Type} (s : CartesianProduct α β) (h : s.Inv) :
    s.next.2.denote = s.denote.tail := by
  obtain ⟨f, sf, sec, sc⟩ := s
  match sec, sf, sc, f with
  | item :: rest, some fi, _, _ =>
    simp [CartesianProduct.next, CartesianProduct.denote]
  | item :: rest, none, _, _ =>
    simp [CartesianProduct.next, CartesianProduct.denote]
  | [], some fi, c :: cs, a :: ft =>
    simp [CartesianProduct.next, CartesianProduct.denote, rowMajor]
  | [], none, c :: cs, a :: ft =>
    exact absurd (h rfl) (by simp)
  | [], some fi, c :: cs, [] =>
    simp [CartesianProduct.next, CartesianProduct.denote, rowMajor]
  | [], none, c :: cs, [] =>
    simp [CartesianProduct.next, CartesianProduct.denote, rowMajor]
  | [], some fi, [], _ =>
    simp [CartesianProduct.next, CartesianProduct.denote, rowMajor_nil_right]
  | [], none, [], _ =>
    simp [CartesianProduct.next, CartesianProduct.denote]

theorem stepN_denote {α β : Type} (n : Nat) (s : CartesianProduct α β)
    (h : s.Inv) : (s.stepN n).denote = s.denote.drop n ∧ (s.stepN n).Inv := by
  induction n generalizing s with
  | zero => exact ⟨by simp [CartesianProduct.stepN], h⟩
  | succ n ih =>
    have hinv := inv_next s h
    have htl := next_snd_denote s h
    obtain ⟨h1, h2⟩ := ih s.next.2 hinv
    refine ⟨?_, h2⟩
    rw [CartesianProduct.stepN, h1, htl, ← List.drop_one, List.drop_drop,
      Nat.add_comm]

theorem head?_drop_eq_getElem? {γ : Type} (l : List γ) (n : Nat) :
    (l.drop n).head? = l[n]? := by
  induction l generalizing n with
  | nil => simp
  | cons a t ih =>
    cases n with
    | zero => simp
    | succ n => simp [ih n]

theorem out_eq_denote_getElem? {α β : Type} (s : CartesianProduct α β)
    (h : s.Inv) (n : Nat) : s.out n = s.denote[n]? := by
  obtain ⟨h1, h2⟩ := stepN_denote n s h
  rw [CartesianProduct.out, next_fst _ h2, h1, head?_drop_eq_getElem?]

theorem denote_cartesian_product {α β : Type} (i : List α) (j : List β) :
    (cartesian_product i j).denote = rowMajor i j := by
  cases i with
  | nil => rfl
  | cons a t => simp [cartesian_product, CartesianProduct.denote, rowMajor]

/-- Composite: the n-th yield of the freshly constructed product iterator is
the n-th entry of the row-major enumeration (and `none` past its end). -/
theorem out_cartesian_product {α β : Type} (i : List α) (j : List β)
    (n : Nat) : (cartesian_product i j).out n = (rowMajor i j)[n]? := by
  rw [out_eq_denote_getElem? _ (inv_cartesian_product i j),
    denote_cartesian_product]

theorem rowMajor_length {α β : Type} (i : List α) (j : List β) :
    (rowMajor i j).length = i.length * j.length := by
  induction i with
  | nil => simp [rowMajor]
  | cons a t ih => simp [rowMajor, ih, Nat.succ_mul, Nat.add_comm]

theorem rowMajor_nil_left {α β : Type} (j : List β) :
    rowMajor ([] : List α) j = [] := rfl

end Itertools

namespace Dok

theorem get_insert {T : Type} (m : CoordMap T) (k : Coords) (v : T)
    (q : Coords) : (m.insert k v).get q = if q = k then some v else m.get q :=
  rfl

theorem identity_fold_get {T : Type} [One T] (size p1 p2 : Nat) :
    ((List.range size).foldl (fun m i => m.insert (i, i) One.one)
        CoordMap.empty : CoordMap T).get (p1, p2)
      = if p1 = p2 ∧ p1 < size then some One.one else none := by
  induction size with
  | zero => simp [CoordMap.get, CoordMap.empty]
  | succ n ih =>
    rw [List.range_succ, List.foldl_append, List.foldl_cons, List.foldl_nil,
      get_insert, ih]
    simp only [Prod.mk.injEq]
    split_ifs <;> first | rfl | (exfalso; omega)

theorem identity_elems_get {T : Type} [One T] (size p1 p2 : Nat) :
    (DOKMatrix.identity size : DOKMatrix T).elems.get (p1, p2)
      = if p1 = p2 ∧ p1 < size then some One.one else none :=
  identity_fold_get size p1 p2

theorem index_out_of_bounds {T : Type} [Zero T] (m : DOKMatrix T)
    (row col : Nat) (h : m.nrows ≤ row ∨ m.ncols ≤ col) :
    m.index row col = Except.error (oobMsg row col m.nrows m.ncols) := by
  rw [DOKMatrix.index, if_pos h]

theorem index_in_bounds {T : Type} [Zero T] (m : DOKMatrix T) (row col : Nat)
    (hr : row < m.nrows) (hc : col < m.ncols) :
    m.index row col
      = Except.ok (match m.elems.get (row, col) with
          | none => Zero.zero
          | some v => v) := by
  rw [DOKMatrix.index, if_neg (by omega)]
  match m.elems.get (row, col) with
  | none => rfl
  | some v => rfl

/-- C1: index access fails exactly when `row ≥ nrows` or `col ≥ ncols`, and
the (unique possible) failure message identifies the offending coordinate and
the matrix's shape. -/
theorem index_fails_iff_out_of_bounds {T : Type} [Zero T] (m : DOKMatrix T)
    (row col : Nat) :
    (m.index row col = Except.error (oobMsg row col m.nrows m.ncols)
      ↔ m.nrows ≤ row ∨ m.ncols ≤ col)
    ∧ (∀ e : String, m.index row col = Except.error e
        → e = oobMsg row col m.nrows m.ncols) := by
  constructor
  · constructor
    · intro h
      by_contra hc
      push_neg at hc
      rw [index_in_bounds m row col hc.1 hc.2] at h
      simp at h
    · exact index_out_of_bounds m row col
  · intro e he
    by_cases h : m.nrows ≤ row ∨ m.ncols ≤ col
    · rw [index_out_of_bounds m row col h] at he
      injection he with h1
      exact h1.symm
    · push_neg at h
      rw [index_in_bounds m row col h.1 h.2] at he
      simp at he

theorem index_fails_iff_out_of_bounds_witness :
    (DOKMatrix.new 2 3 CoordMap.empty : DOKMatrix F64).index 5 1
      = Except.error (oobMsg 5 1 2 3) :=
  (index_fails_iff_out_of_bounds
    (DOKMatrix.new 2 3 CoordMap.empty : DOKMatrix F64) 5 1).1.mpr
    (by decide)

/-- C2: at an in-bounds coordinate, index access returns the stored value
when the coordinate is present in the mapping and the zero identity when it
is absent.  (The access is a pure function of the matrix, so it has no side
effects on it.) -/
theorem index_in_bounds_value {T : Type} [Zero T] (m : DOKMatrix T)
    (row col : Nat) (hr : row < m.nrows) (hc : col < m.ncols) :
    (∀ v : T, m.elems.get (row, col) = some v
      → m.index row col = Except.ok v)
    ∧ (m.elems.get (row, col) = none
      → m.index row col = Except.ok Zero.zero) := by
  constructor
  · intro v hv
    rw [index_in_bounds m row col hr hc, hv]
  · intro hv
    rw [index_in_bounds m row col hr hc, hv]

theorem index_in_bounds_value_witness :
    (DOKMatrix.new 4 8 (CoordMap.empty.insert (0, 1) (2 : F64))).index 0 1
      = Except.ok 2 :=
  (index_in_bounds_value
    (DOKMatrix.new 4 8 (CoordMap.empty.insert (0, 1) (2 : F64))) 0 1
    (by decide) (by decide)).1 2 (by decide)

/-- C3: the identity-constructed matrix is square of shape `(size, size)`,
its mapping holds exactly the diagonal `(i, i) ↦ one` for `i < size`, and
index access reads the one identity on the diagonal and the zero identity at
every other in-bounds coordinate. -/
theorem identity_spec {T : Type} [Zero T] [One T] (size : Nat) :
    ((DOKMatrix.identity size : DOKMatrix T).nrows = size
      ∧ (DOKMatrix.identity size : DOKMatrix T).ncols = size)
    ∧ (∀ i j : Nat, (DOKMatrix.identity size : DOKMatrix T).elems.get (i, j)
        = if i = j ∧ i < size then some One.one else none)
    ∧ (∀ i : Nat, i < size
        → (DOKMatrix.identity size : DOKMatrix T).index i i
          = Except.ok One.one)
    ∧ (∀ i j : Nat, i < size → j < size → i ≠ j
        → (DOKMatrix.identity size : DOKMatrix T).index i j
          = Except.ok Zero.zero) := by
  refine ⟨⟨rfl, rfl⟩, ?_, ?_, ?_⟩
  · intro i j
    exact identity_elems_get size i j
  · intro i hi
    rw [index_in_bounds (DOKMatrix.identity size) i i hi hi,
      identity_elems_get]
    simp [hi]
  · intro i j hi hj hne
    rw [index_in_bounds (DOKMatrix.identity size) i j hi hj,
      identity_elems_get]
    simp [hne]

theorem identity_spec_witness :
    (DOKMatrix.identity 3 : DOKMatrix F64).index 1 1 = Except.ok One.one
    ∧ (DOKMatrix.identity 3 : DOKMatrix F64).index 1 2
        = Except.ok Zero.zero :=
  ⟨(@identity_spec F64 _ _ 3).2.2.1 1 (by decide),
   (@identity_spec F64 _ _ 3).2.2.2 1 2 (by decide) (by decide) (by decide)⟩

/-- C4: `transposed` returns a matrix with `nrows`/`ncols` swapped whose
mapping reads at `(c, r)` exactly what the receiver's mapping holds at
`(r, c)` (and nothing else, stated pointwise at every coordinate); the
receiver is untouched, `transposed` being a pure function of it. -/
theorem transposed_spec {T : Type} (m : DOKMatrix T) :
    m.transposed.nrows = m.ncols ∧ m.transposed.ncols = m.nrows
    ∧ (∀ r c : Nat, m.transposed.elems.get (c, r) = m.elems.get (r, c))
    ∧ (∀ q : Coords, m.transposed.elems.get q = m.elems.get (q.2, q.1)) :=
  ⟨rfl, rfl, fun _ _ => rfl, fun _ => rfl⟩

/-- C5: transpose is an involution up to shape swap: transposing twice gives
back the original shape and, at every coordinate, index access agrees with
the original (in or out of bounds alike); and a stored in-bounds entry
`(row, col) ↦ v` is read back by the single transpose at `(col, row)`. -/
theorem transposed_involution {T : Type} [Zero T] (m : DOKMatrix T) :
    (m.transposed.transposed.nrows = m.nrows
      ∧ m.transposed.transposed.ncols = m.ncols)
    ∧ (∀ row col : Nat,
        m.transposed.transposed.index row col = m.index row col)
    ∧ (∀ row col : Nat, ∀ v : T, m.elems.get (row, col) = some v
        → row < m.nrows → col < m.ncols
        → m.transposed.index col row = Except.ok v) := by
  refine ⟨⟨rfl, rfl⟩, fun _ _ => rfl, ?_⟩
  intro row col v hv hr hc
  have hv' : m.transposed.elems.get (col, row) = some v := hv
  rw [index_in_bounds m.transposed col row hc hr, hv']

theorem transposed_involution_witness :
    (DOKMatrix.new 4 8 (CoordMap.empty.insert (0, 1) (1 : F64))).transposed.index 1 0
      = Except.ok 1 :=
  (transposed_involution
    (DOKMatrix.new 4 8 (CoordMap.empty.insert (0, 1) (1 : F64)))).2.2
    0 1 1 (by decide) (by decide) (by decide)

/-- C6: `f64` is an eligible element type and its identity accessors are the
constants zero = 0.0 and one = 1.0; being constants of a pure embedding they
return the identical value on every use, with no side effect or failure. -/
theorem f64_identities :
    ZERO_F64 = 0 ∧ ONE_F64 = 1
    ∧ (Zero.zero : F64) = ZERO_F64 ∧ (One.one : F64) = ONE_F64 :=
  ⟨rfl, rfl, rfl, rfl⟩

/-- C10 (counterexample): the claim is false on the code.  There is no
matrix with a stored entry `(row, col) ↦ v` where `row ≥ nrows`, `col <
ncols` and `row < ncols` whose transpose returns `v` at `(col, row)`: the
transpose's bound check compares `col` against `ncols` and `row` against
`nrows` — the original in-bounds condition — so the access fails instead. -/
theorem transposed_oob_readable_cex :
    ¬ ∃ (m : DOKMatrix F64) (row col : Nat) (v : F64),
        m.elems.get (row, col) = some v ∧ m.nrows ≤ row ∧ col < m.ncols
        ∧ row < m.ncols
        ∧ m.transposed.index col row = Except.ok v := by
  rintro ⟨m, row, col, v, hv, hr, hc, hrc, hidx⟩
  rw [index_out_of_bounds m.transposed col row (Or.inr hr)] at hidx
  simp at hidx

/-- C10 (amended): construction stores an out-of-bounds entry without any
validation and the transpose remaps it to the swapped key, but the entry does
not become readable: index access at `(col, row)` on the transposed matrix
fails with the out-of-bounds error, because the transpose's bound check at
the swapped coordinate is the original in-bounds condition. -/
theorem transposed_oob_stays_unreadable {T : Type} [Zero T]
    (nrows ncols row col : Nat) (es : CoordMap T) (v : T)
    (hv : es.get (row, col) = some v) (hr : nrows ≤ row) :
    (DOKMatrix.new nrows ncols es).elems.get (row, col) = some v
    ∧ (DOKMatrix.new nrows ncols es).transposed.elems.get (col, row) = some v
    ∧ (DOKMatrix.new nrows ncols es).transposed.index col row
        = Except.error (oobMsg col row ncols nrows) := by
  refine ⟨hv, hv, ?_⟩
  exact index_out_of_bounds _ col row (Or.inr hr)

theorem transposed_oob_stays_unreadable_witness :
    (DOKMatrix.new 1 2
        (CoordMap.empty.insert (1, 0) (5 : F64))).transposed.index 0 1
      = Except.error (oobMsg 0 1 2 1) :=
  (transposed_oob_stays_unreadable 1 2 1 0
    (CoordMap.empty.insert (1, 0) (5 : F64)) 5 (by decide) (by decide)).2.2

end Dok

namespace Itertools

/-- C7: over finite sequences of lengths `m` and `n`, the product iterator's
sequence of yields is exactly the row-major enumeration (first sequence
outer, second inner and replayed): its `k`-th yield is the `k`-th pair of
that enumeration, `none` past its end, and the enumeration has `m * n`
pairs. -/
theorem cartesian_product_row_major {α β : Type} (i : List α) (j : List β) :
    (∀ n : Nat, (cartesian_product i j).out n = (rowMajor i j)[n]?)
    ∧ (rowMajor i j).length = i.length * j.length :=
  ⟨out_cartesian_product i j, rowMajor_length i j⟩

/-- C8: if either input sequence is empty the product yields nothing — at
every step, in all three combinations (empty, non-empty), (non-empty, empty)
and (empty, empty). -/
theorem cartesian_product_empty_yields_nothing {α β : Type} (i : List α)
    (j : List β) (n : Nat) :
    (cartesian_product ([] : List α) j).out n = none
    ∧ (cartesian_product i ([] : List β)).out n = none
    ∧ (cartesian_product ([] : List α) ([] : List β)).out n = none := by
  refine ⟨?_, ?_, ?_⟩ <;> rw [out_cartesian_product] <;>
    simp [rowMajor_nil_right, rowMajor_nil_left]

/-- C9: the product is single-pass and not restartable: once a step of a
freshly constructed product iterator yields nothing, every later step also
yields nothing. -/
theorem cartesian_product_not_restartable {α β : Type} (i : List α)
    (j : List β) (n m : Nat) (hnm : n ≤ m)
    (h : (cartesian_product i j).out n = none) :
    (cartesian_product i j).out m = none := by
  rw [out_cartesian_product] at h ⊢
  have hlen : (rowMajor i j).length ≤ n := by
    by_contra hc
    push_neg at hc
    rw [List.getElem?_eq_getElem hc] at h
    simp at h
  exact List.getElem?_eq_none (le_trans hlen hnm)

theorem cartesian_product_not_restartable_witness :
    (cartesian_product [0] [0]).out 1 = none
    ∧ (cartesian_product [0] [0]).out 2 = none :=
  ⟨by decide,
   cartesian_product_not_restartable [0] [0] 1 2 (by decide) (by decide)⟩

end Itertools

end Revolver
